import Mathlib

/-!
The 2048-cli development: browser backend, storage-order benchmark and move engine

A shallow embedding of

* `src/2048-cli-0.9.1/src/gfx_web.c` (the WebAssembly/browser backend),
* `src/experiments/exp_007/benchmarks/cache_test.c` (the storage-order benchmark),
* the move engine of section 4.2 of the specification (its C source is not
  among the sources, so it is modelled from the specification's words),

followed by the theorems about them.

Conventions.  C `int`, `long` and pointers are 32-bit words on the wasm32
target of Emscripten; they are embedded as `Int`.  The index computation
`(grid >> 2) + (i * width + j)` is performed by the JavaScript side on numbers
without wrap-around.  The one place where a JavaScript value of any size
enters C is the result of `gfx_getch`, which is reduced to a 32-bit `int`
there (`to_int32`).  State is passed explicitly: every C function takes the
machine state and returns the new one.
-/

namespace Web2048

/-! ## The game state read by the backend (`engine.h`) -/

/-- Modelled from the spec: `struct gameoptions` of `engine.h`, which is not among the
sources.  Only the two fields that `gfx_draw` reads (`opts->grid_width`,
`opts->grid_height`) are kept; they are the configured grid dimensions. -/
structure gameoptions where
  grid_width : Int
  grid_height : Int
deriving DecidableEq

/-- Modelled from the spec: `struct gamestate` of `engine.h`, which is not among the
sources.  The fields are those `gfx_web.c` reads: the address of the grid
storage, the number of cells, the score, the high score and the options. -/
structure gamestate where
  grid_data_ptr : Int
  gridsize : Int
  score : Int
  score_high : Int
  opts : gameoptions
deriving DecidableEq

/-! ## The host (browser) side -/

/-- A JavaScript value as far as `gfx_getch` can observe one: `undefined`, `null`,
an integral number `k`, or any other value (a fraction, `NaN`, a string, a
boolean, an object), which is given by the two things the code observes of it:
whether it is truthy, and the integer that its conversion to a 32-bit integer
starts from. -/
inductive JsVal where
  | undefined
  | null
  | number (k : Int)
  | other (truthy : Bool) (value : Int)
deriving DecidableEq

/-- Truthiness, the test of `if (window.lastKeyPressed)`: `undefined`, `null` and
the number `0` are falsy, every other integral number is truthy. -/
def JsVal.truthy : JsVal → Bool
  | JsVal.undefined => false
  | JsVal.null => false
  | JsVal.number k => decide (k ≠ 0)
  | JsVal.other t _ => t

/-- The conversion of an integer to a C `int` (JavaScript `ToInt32`): reduction
modulo `2 ^ 32` into the range from `-2 ^ 31` up to `2 ^ 31 - 1`. -/
def to_int32 (k : Int) : Int :=
  (k + 2147483648) % 4294967296 - 2147483648

/-- The C `int` that `EM_ASM_INT` makes of the JavaScript value its block returns. -/
def JsVal.as_int : JsVal → Int
  | JsVal.undefined => 0
  | JsVal.null => 0
  | JsVal.number k => to_int32 k
  | JsVal.other _ v => to_int32 v

/-- The part of the JavaScript `window` object the backend touches: whether each
callback is installed (truthy), and the value in the `lastKeyPressed` slot. -/
structure Window where
  updateGameBoard : Bool
  updateScore : Bool
  onGameOver : Bool
  lastKeyPressed : JsVal
deriving DecidableEq

/-- A JavaScript board: an array of rows, each an array of `HEAP32` reads.  A read
outside the typed array yields `undefined`, embedded as `none`. -/
abbrev Board := List (List (Option Int))

/-- A call of one of the `EM_JS` functions made by the C side, with its arguments. -/
inductive JsCall where
  | js_update_board (grid size width height : Int)
  | js_update_score (score highscore : Int)
  | js_game_over
deriving DecidableEq

/-- An invocation of one of the host callbacks, with the values handed over. -/
inductive HostCall where
  | updateGameBoard (board : Board)
  | updateScore (score highscore : Int)
  | onGameOver
deriving DecidableEq

/-- The machine state: the `struct gamestate` objects by address, the linear memory
viewed as `HEAP32` (word index to word, `none` outside the array), the host
window, and two append-only logs: the `EM_JS` calls made and the host
callbacks invoked, oldest first. -/
structure Machine where
  gamestates : Nat → gamestate
  HEAP32 : Int → Option Int
  window : Window
  calls : List JsCall
  host : List HostCall

/-- The backend's own state, `struct gfx_state`: the game pointer and the score
last sent to the host. -/
structure gfx_state where
  game : Nat
  last_score : Int
deriving DecidableEq

/-! ## `gfx_web.c` -/

/-- The offsets `i * width + j` in the order the two nested loops of
`js_update_board` produce them: `i` from `0` while `i < height` (outer),
`j` from `0` while `j < width` (inner). -/
def js_board_offsets (width height : Int) : List (List Int) :=
  (List.range height.toNat).map fun (i : Nat) =>
    (List.range width.toNat).map fun (j : Nat) => (i : Int) * width + (j : Int)

/-- The `board` array built by `js_update_board`: entry `(i, j)` is
`HEAP32[(grid >> 2) + (i * width + j)]`. -/
def js_board (HEAP32 : Int → Option Int) (grid width height : Int) : Board :=
  (js_board_offsets width height).map fun row =>
    row.map fun k => HEAP32 ((grid >>> (2 : Nat)) + k)

/-- The host function `EM_JS(void, js_update_board, (int* grid, int size, int width, int height))`:
when `window.updateGameBoard` is installed, builds the board and passes it to
the callback. -/
def js_update_board (m : Machine) (grid size width height : Int) : Machine :=
  let m1 := { m with calls := m.calls ++ [JsCall.js_update_board grid size width height] }
  if m1.window.updateGameBoard then
    { m1 with host := m1.host ++ [HostCall.updateGameBoard (js_board m1.HEAP32 grid width height)] }
  else m1

/-- The host function `EM_JS(void, js_update_score, (int score, int highscore))`. -/
def js_update_score (m : Machine) (score highscore : Int) : Machine :=
  let m1 := { m with calls := m.calls ++ [JsCall.js_update_score score highscore] }
  if m1.window.updateScore then
    { m1 with host := m1.host ++ [HostCall.updateScore score highscore] }
  else m1

/-- The host function `EM_JS(void, js_game_over, ())`. -/
def js_game_over (m : Machine) : Machine :=
  let m1 := { m with calls := m.calls ++ [JsCall.js_game_over] }
  if m1.window.onGameOver then
    { m1 with host := m1.host ++ [HostCall.onGameOver] }
  else m1

/-- The function `void gfx_draw(struct gfx_state *s, struct gamestate *g)`.  The struct `*s` is
passed in and returned; `g` is the address of the game state. -/
def gfx_draw (s : gfx_state) (g : Nat) (m : Machine) : gfx_state × Machine :=
  let m1 := js_update_board m (m.gamestates g).grid_data_ptr (m.gamestates g).gridsize
    (m.gamestates g).opts.grid_width (m.gamestates g).opts.grid_height
  if (m1.gamestates g).score ≠ s.last_score then
    let m2 := js_update_score m1 (m1.gamestates g).score (m1.gamestates g).score_high
    ({ s with last_score := (m2.gamestates g).score }, m2)
  else
    (s, m1)

/-- The function `struct gfx_state* gfx_init(struct gamestate *g)`.  Whether `malloc` succeeds is
an input; on failure the function returns `NULL` (`none`) at once. -/
def gfx_init (malloc_ok : Bool) (g : Nat) (m : Machine) : Option gfx_state × Machine :=
  if malloc_ok then
    let s : gfx_state := { game := g, last_score := 0 }
    let r := gfx_draw s g m
    (some r.1, r.2)
  else
    (none, m)

/-- The Emscripten call `emscripten_sleep(ms)`: control goes to the browser, whose event handlers may
change the window (for instance record a key press) before control returns. -/
def emscripten_sleep (browser : Window → Window) (m : Machine) : Machine :=
  { m with window := browser m.window }

/-- The function `int gfx_getch(struct gfx_state *s)`: yields to the browser once, then reads the
`lastKeyPressed` slot; when the slot is truthy it is set to `null` and its
former value is returned, converted to a C `int` by `EM_ASM_INT`; otherwise the
result is `-1`. -/
def gfx_getch (browser : Window → Window) (s : gfx_state) (m : Machine) :
    Int × gfx_state × Machine :=
  let m1 := emscripten_sleep browser m
  if m1.window.lastKeyPressed.truthy then
    (m1.window.lastKeyPressed.as_int, s,
      { m1 with window := { m1.window with lastKeyPressed := JsVal.null } })
  else
    (-1, s, m1)

/-- The function `void gfx_sleep(int ms)`. -/
def gfx_sleep (browser : Window → Window) (m : Machine) : Machine :=
  emscripten_sleep browser m

/-- The exported function `void game_handle_input(struct gamestate *g, int key)`: the body is empty. -/
def game_handle_input (_g : Nat) (_key : Int) (m : Machine) : Machine := m

/-- The exported function `int* game_get_board_ptr(struct gamestate *g)`. -/
def game_get_board_ptr (g : Nat) (m : Machine) : Int × Machine :=
  ((m.gamestates g).grid_data_ptr, m)

/-- The exported function `int game_get_board_size(struct gamestate *g)`. -/
def game_get_board_size (g : Nat) (m : Machine) : Int × Machine :=
  ((m.gamestates g).gridsize, m)

/-- The exported function `int game_get_score(struct gamestate *g)`. -/
def game_get_score (g : Nat) (m : Machine) : Int × Machine :=
  ((m.gamestates g).score, m)

/-! ## Reading the grid storage from C, and runs of the frame loop -/

/-- The C expression `p[k]` for `int *p`: the 32-bit word at byte address
`p + 4 * k`, which is word `(p + 4 * k) >> 2` of `HEAP32`. -/
def int_at (HEAP32 : Int → Option Int) (p k : Int) : Option Int :=
  HEAP32 ((p + 4 * k) >>> (2 : Nat))

/-- The value of logical cell (row `r`, column `c`) of a grid held in the
column-major layout of `cache_test.c`, where `UI[r][c]` is `grid[c][r]`:
column `c` is the `c`-th run of `height` words of the storage, so the cell is
word `c * height + r` of the storage at `grid_data_ptr`. -/
def logical_cell (HEAP32 : Int → Option Int) (grid_data_ptr height r c : Int) : Option Int :=
  int_at HEAP32 grid_data_ptr (c * height + r)

/-- The score and high score most recently handed to `window.updateScore`, if any. -/
def last_score_shown (host : List HostCall) : Option (Int × Int) :=
  host.foldl (fun acc e =>
    match e with
    | HostCall.updateScore score highscore => some (score, highscore)
    | _ => acc) none

/-- The engine overwrites the game state at address `g` with `v`. -/
def set_game (m : Machine) (g : Nat) (v : gamestate) : Machine :=
  { m with gamestates := Function.update m.gamestates g v }

/-- A run of the frame loop as the backend sees it: for each element `v` of the
list in turn, the game state at `g` changes to `v` and `gfx_draw` is called. -/
def frames (g : Nat) : List gamestate → gfx_state × Machine → gfx_state × Machine
  | [], sm => sm
  | v :: vs, sm => frames g vs (gfx_draw sm.1 g (set_game sm.2 g v))

/-- The last state of a run: `v0` when the list is empty, else the list's last. -/
def last_drawn (v0 : gamestate) : List gamestate → gamestate
  | [] => v0
  | v :: vs => last_drawn v vs

/-- The relation between two game states drawn one after the other under which the
display cannot go stale: if the score is the same, so is the high score. -/
def high_follows_score (v w : gamestate) : Prop :=
  w.score = v.score → w.score_high = v.score_high

/-- A 2 x 2 example: the storage at byte address 16 holds the words 1, 2, 3, 4, the
game state at address 0 has the given score and high score, both host
callbacks are installed, no key is pending and nothing has been logged. -/
def example_machine (score score_high : Int) : Machine :=
  { gamestates := fun _ =>
      { grid_data_ptr := 16, gridsize := 4, score := score, score_high := score_high,
        opts := { grid_width := 2, grid_height := 2 } }
    HEAP32 := fun k => if 4 ≤ k ∧ k < 8 then some (k - 3) else if 0 ≤ k ∧ k < 64 then some 0 else none
    window := { updateGameBoard := true, updateScore := true, onGameOver := true,
                lastKeyPressed := JsVal.null }
    calls := []
    host := [] }

end Web2048

/-! ## `cache_test.c`: the storage-order benchmark -/

namespace CacheTest

/-- The constant of `#define SIZE 4`. -/
def SIZE : Nat := 4

/-- The constant of `#define ITERATIONS 1000000`. -/
def ITERATIONS : Nat := 1000000

/-- The linear offset, counted in `int`s from the start of the array
`int grid[size][size]`, of the element `grid[a][b]`. -/
def grid_offset (size a b : Nat) : Nat := a * size + b

/-- One pass of the loops of test 1 (UI order): `r` outer, `c` inner, reading
`grid[c][r]`; the list holds the offsets read, in order. -/
def ui_order_pass (size : Nat) : List Nat :=
  (List.range size).flatMap fun r => (List.range size).map fun c => grid_offset size c r

/-- One pass of the loops of test 2 (memory order): `c` outer, `r` inner, reading
`grid[c][r]`. -/
def memory_order_pass (size : Nat) : List Nat :=
  (List.range size).flatMap fun c => (List.range size).map fun r => grid_offset size c r

/-- Test 1 of `benchmark_access_patterns`: the pass repeated `iterations` times. -/
def ui_order_test (iterations size : Nat) : List Nat :=
  (List.range iterations).flatMap fun _ => ui_order_pass size

/-- Test 2 of `benchmark_access_patterns`: the pass repeated `iterations` times. -/
def memory_order_test (iterations size : Nat) : List Nat :=
  (List.range iterations).flatMap fun _ => memory_order_pass size

end CacheTest

/-! ## The move engine (specification, section 4.2) -/

namespace Engine

/-- Modelled from the spec: the `Direction` enumeration of section 3; the engine's C
source is not among the sources. -/
inductive Direction where
  | Up
  | Down
  | Left
  | Right
deriving DecidableEq

/-- Modelled from the spec: the Grid of section 3, an N x N matrix of non-negative
integers addressed by logical (row, column); the engine's C source is not among
the sources. -/
abbrev Grid (n : Nat) := Fin n → Fin n → Nat

/-- Modelled from the spec: a tile of the sequence being merged together with its
"merged" mark of step 3 of section 4.2. -/
structure Tile where
  value : Nat
  merged : Bool
deriving DecidableEq

/-- Modelled from the spec: step 2 of section 4.2, "remove zeros, preserving relative
order". -/
def compact (line : List Nat) : List Nat :=
  line.filter fun v => v ≠ 0

/-- Modelled from the spec: step 3 of section 4.2.  The scan goes left to right; when
element `i` equals element `i+1` and neither is marked merged, they are
combined into one tile of double value at position `i`, marked merged, its
value is added to the score delta and the duplicate is dropped; the scan then
goes on with the next position.  The result is the merged sequence and the
score delta. -/
def merge_scan : List Tile → List Tile × Nat
  | [] => ([], 0)
  | [a] => ([a], 0)
  | a :: b :: rest =>
    if a.value = b.value ∧ a.merged = false ∧ b.merged = false then
      ({ value := 2 * a.value, merged := true } :: (merge_scan rest).1,
        2 * a.value + (merge_scan rest).2)
    else
      (a :: (merge_scan (b :: rest)).1, (merge_scan (b :: rest)).2)

/-- The compacted line as a sequence of tiles none of which is marked merged, the
state in which the scan of step 3 starts. -/
def unmerged_tiles (line : List Nat) : List Tile :=
  (compact line).map fun v => { value := v, merged := false }

/-- Modelled from the spec: the outcome of steps 2 to 4 on one line. -/
structure LineResult where
  line : List Nat
  score_delta : Nat
  changed : Bool
deriving DecidableEq

/-- Modelled from the spec: steps 2 to 4 of section 4.2 on one extracted line (index 0
is the near edge): compact, merge, pad with zeros at the far end back to the
length of the line; the line counts as changed when a cell value differs. -/
def move_line (line : List Nat) : LineResult :=
  let scanned := merge_scan (unmerged_tiles line)
  let values := scanned.1.map Tile.value
  let padded := values ++ List.replicate (line.length - values.length) 0
  { line := padded, score_delta := scanned.2, changed := decide (padded ≠ line) }

/-- The grid cell (row, column) that holds position `p` of line `k` for a move in
direction `d`; position 0 is the edge the tiles slide toward. -/
def line_cell {n : Nat} (d : Direction) (k p : Fin n) : Fin n × Fin n :=
  match d with
  | Direction.Left => (k, p)
  | Direction.Right => (k, p.rev)
  | Direction.Up => (p, k)
  | Direction.Down => (p.rev, k)

/-- The line and the position in it to which the grid cell (row `r`, column `c`)
belongs for a move in direction `d`. -/
def cell_line {n : Nat} (d : Direction) (r c : Fin n) : Fin n × Fin n :=
  match d with
  | Direction.Left => (r, c)
  | Direction.Right => (r, c.rev)
  | Direction.Up => (c, r)
  | Direction.Down => (c, r.rev)

/-- Modelled from the spec: step 1 of section 4.2, the line of N values in the
direction of travel. -/
def extract_line {n : Nat} (g : Grid n) (d : Direction) (k : Fin n) : List Nat :=
  List.ofFn fun p : Fin n => g (line_cell d k p).1 (line_cell d k p).2

/-- Modelled from the spec: the Move Result of section 3. -/
structure MoveResult (n : Nat) where
  grid : Grid n
  score_delta : Nat
  changed : Bool

/-- Modelled from the spec: `apply_move(grid, direction) -> MoveResult` of section 4.2.
Every line is extracted, compacted, merged and padded, and written back in its
original orientation (step 5); the score delta accumulates over the lines and
the move is changed when some line is. -/
def apply_move {n : Nat} (g : Grid n) (d : Direction) : MoveResult n :=
  { grid := fun r c =>
      (move_line (extract_line g d (cell_line d r c).1)).line.getD (cell_line d r c).2 0
    score_delta := ((List.finRange n).map fun k => (move_line (extract_line g d k)).score_delta).sum
    changed := (List.finRange n).any fun k => (move_line (extract_line g d k)).changed }

/-- The values of the tiles that the merge step creates on one line. -/
def created_tiles (line : List Nat) : List Nat :=
  ((merge_scan (unmerged_tiles line)).1.filter fun t => t.merged).map Tile.value

/-- The values of the tiles created by merging in a whole move, line by line. -/
def created_by_move {n : Nat} (g : Grid n) (d : Direction) : List Nat :=
  (List.finRange n).flatMap fun k => created_tiles (extract_line g d k)

/-- The original tiles a tile of the merged sequence is made of: a merged tile of
value `v` stands for two tiles of value `v / 2`, an unmerged tile for itself. -/
def Tile.parts (t : Tile) : List Nat :=
  if t.merged then [t.value / 2, t.value / 2] else [t.value]

/-- Whether no two neighbouring tiles of a sequence are equal, that is, whether the
scan of step 3 finds nothing to merge in it. -/
def no_equal_neighbours : List Nat → Bool
  | a :: b :: rest => decide (a ≠ b) && no_equal_neighbours (b :: rest)
  | _ => true

/-- The grid whose rows are the given lists (cells beyond a list read as empty). -/
def Grid.ofRows (n : Nat) (rows : List (List Nat)) : Grid n :=
  fun r c => (rows.getD r.val []).getD c.val 0

/-- The rows of a grid as lists, for display and comparison. -/
def Grid.toRows {n : Nat} (g : Grid n) : List (List Nat) :=
  List.ofFn fun r : Fin n => List.ofFn fun c : Fin n => g r c

end Engine

/-! # Theorems -/

section Helpers

/-- Reading rows of `w` consecutive numbers, `h` rows one after the other, reads
`0, 1, ..., h * w - 1` in order. -/
theorem range_rows (w h : Nat) :
    ((List.range h).flatMap fun i => (List.range w).map fun j => i * w + j)
      = List.range (h * w) := by
  induction h with
  | zero => simp
  | succ h ih =>
    rw [List.range_succ, List.flatMap_append, ih, List.flatMap_singleton, Nat.succ_mul,
      List.range_add]

end Helpers

namespace Web2048

theorem js_update_board_gamestates (m : Machine) (grid size width height : Int) :
    (js_update_board m grid size width height).gamestates = m.gamestates := by
  unfold js_update_board
  dsimp only
  split <;> rfl

theorem js_update_board_HEAP32 (m : Machine) (grid size width height : Int) :
    (js_update_board m grid size width height).HEAP32 = m.HEAP32 := by
  unfold js_update_board
  dsimp only
  split <;> rfl

theorem js_update_board_window (m : Machine) (grid size width height : Int) :
    (js_update_board m grid size width height).window = m.window := by
  unfold js_update_board
  dsimp only
  split <;> rfl

theorem js_update_score_gamestates (m : Machine) (score highscore : Int) :
    (js_update_score m score highscore).gamestates = m.gamestates := by
  unfold js_update_score
  dsimp only
  split <;> rfl

theorem js_update_score_HEAP32 (m : Machine) (score highscore : Int) :
    (js_update_score m score highscore).HEAP32 = m.HEAP32 := by
  unfold js_update_score
  dsimp only
  split <;> rfl

theorem js_update_score_window (m : Machine) (score highscore : Int) :
    (js_update_score m score highscore).window = m.window := by
  unfold js_update_score
  dsimp only
  split <;> rfl

theorem gfx_draw_gamestates (s : gfx_state) (g : Nat) (m : Machine) :
    (gfx_draw s g m).2.gamestates = m.gamestates := by
  unfold gfx_draw
  dsimp only
  split <;> simp [js_update_board_gamestates, js_update_score_gamestates]

theorem gfx_draw_HEAP32 (s : gfx_state) (g : Nat) (m : Machine) :
    (gfx_draw s g m).2.HEAP32 = m.HEAP32 := by
  unfold gfx_draw
  dsimp only
  split <;> simp [js_update_board_HEAP32, js_update_score_HEAP32]

theorem gfx_draw_window (s : gfx_state) (g : Nat) (m : Machine) :
    (gfx_draw s g m).2.window = m.window := by
  unfold gfx_draw
  dsimp only
  split <;> simp [js_update_board_window, js_update_score_window]

theorem gfx_draw_game (s : gfx_state) (g : Nat) (m : Machine) :
    (gfx_draw s g m).1.game = s.game := by
  unfold gfx_draw
  dsimp only
  split <;> rfl

theorem gfx_getch_memory (browser : Window → Window) (s : gfx_state) (m : Machine) :
    (gfx_getch browser s m).2.2.gamestates = m.gamestates
      ∧ (gfx_getch browser s m).2.2.HEAP32 = m.HEAP32
      ∧ (gfx_getch browser s m).2.1 = s := by
  unfold gfx_getch emscripten_sleep
  dsimp only
  split <;> simp

/-- Claim C3: none of `gfx_init`, `gfx_draw`, `gfx_getch`, `game_handle_input`,
`game_get_board_ptr`, `game_get_board_size` and `game_get_score` changes a
game state (so no field of it: score, score_high, gridsize, options, grid
pointer) or a word of the memory that holds the grid cells; `gfx_draw`
moreover leaves the window and the backend's game pointer as they were, so the
only state it writes is the backend's own `last_score` (the two logs only
record the calls made). -/
theorem C3_backend_never_mutates_game (malloc_ok : Bool) (browser : Window → Window)
    (s : gfx_state) (g : Nat) (key : Int) (m : Machine) :
    ((gfx_init malloc_ok g m).2.gamestates = m.gamestates
        ∧ (gfx_init malloc_ok g m).2.HEAP32 = m.HEAP32)
      ∧ ((gfx_draw s g m).2.gamestates = m.gamestates
        ∧ (gfx_draw s g m).2.HEAP32 = m.HEAP32
        ∧ (gfx_draw s g m).2.window = m.window
        ∧ (gfx_draw s g m).1.game = s.game)
      ∧ ((gfx_getch browser s m).2.2.gamestates = m.gamestates
        ∧ (gfx_getch browser s m).2.2.HEAP32 = m.HEAP32
        ∧ (gfx_getch browser s m).2.1 = s)
      ∧ game_handle_input g key m = m
      ∧ (game_get_board_ptr g m).2 = m
      ∧ (game_get_board_size g m).2 = m
      ∧ (game_get_score g m).2 = m := by
  refine ⟨?_, ⟨gfx_draw_gamestates s g m, gfx_draw_HEAP32 s g m, gfx_draw_window s g m,
    gfx_draw_game s g m⟩, gfx_getch_memory browser s m, rfl, rfl, rfl, rfl⟩
  unfold gfx_init
  cases malloc_ok
  · simp
  · simp [gfx_draw_gamestates, gfx_draw_HEAP32]

/-- Claim C4, evaluated on the code: with no key pending in the host's slot and a
browser that records none while the backend yields, `gfx_getch` does not wait;
it returns `-1` at once and leaves the slot empty. -/
theorem C4_gfx_getch_returns_without_key :
    (gfx_getch id { game := 0, last_score := 0 } (example_machine 0 0)).1 = -1
      ∧ (example_machine 0 0).window.lastKeyPressed = JsVal.null
      ∧ (gfx_getch id { game := 0, last_score := 0 }
          (example_machine 0 0)).2.2.window.lastKeyPressed = JsVal.null := by
  refine ⟨rfl, rfl, rfl⟩

theorem to_int32_of_int (k : Int) (hlo : -2147483648 ≤ k) (hhi : k < 2147483648) :
    to_int32 k = k := by
  unfold to_int32
  omega

/-- What `gfx_getch` does when the slot is truthy as it reads it: it returns the
slot's value converted to a C `int` and leaves `null` in the slot, and a second
`gfx_getch` during whose yield the browser leaves the slot alone returns `-1`. -/
theorem gfx_getch_truthy (browser : Window → Window) (s : gfx_state) (m : Machine)
    (h : (browser m.window).lastKeyPressed.truthy = true) :
    (gfx_getch browser s m).1 = (browser m.window).lastKeyPressed.as_int
      ∧ (gfx_getch browser s m).2.2.window.lastKeyPressed = JsVal.null
      ∧ ∀ (quiet : Window → Window) (s2 : gfx_state),
          (quiet (gfx_getch browser s m).2.2.window).lastKeyPressed
              = (gfx_getch browser s m).2.2.window.lastKeyPressed →
          (gfx_getch quiet s2 (gfx_getch browser s m).2.2).1 = -1 := by
  have h1 : gfx_getch browser s m
      = ((browser m.window).lastKeyPressed.as_int, s,
          { emscripten_sleep browser m with
            window := { browser m.window with lastKeyPressed := JsVal.null } }) := by
    simp [gfx_getch, emscripten_sleep, h]
  rw [h1]
  refine ⟨rfl, rfl, ?_⟩
  intro quiet s2 hq
  simp only at hq
  simp [gfx_getch, emscripten_sleep, hq, JsVal.truthy]

/-- Claim C8 as stated fails: with the non-zero key `4294967296` pending in the slot,
`gfx_getch` returns `0`, not the key, because the value is reduced to a 32-bit
`int` on its way into C; likewise the key `2147483648` comes back as
`-2147483648`.  The slot is cleared all the same. -/
theorem C8_wide_key_is_not_returned :
    (gfx_getch (fun w => { w with lastKeyPressed := JsVal.number 4294967296 })
        { game := 0, last_score := 0 } (example_machine 0 0)).1 = 0
      ∧ (gfx_getch (fun w => { w with lastKeyPressed := JsVal.number 4294967296 })
        { game := 0, last_score := 0 } (example_machine 0 0)).1 ≠ 4294967296
      ∧ (gfx_getch (fun w => { w with lastKeyPressed := JsVal.number 2147483648 })
        { game := 0, last_score := 0 } (example_machine 0 0)).1 = -2147483648
      ∧ (gfx_getch (fun w => { w with lastKeyPressed := JsVal.number 4294967296 })
        { game := 0, last_score := 0 } (example_machine 0 0)).2.2.window.lastKeyPressed
          = JsVal.null := by
  refine ⟨?_, ?_, ?_, ?_⟩ <;> decide

/-- Claim C8 as amended: when the slot holds a non-zero key `k` as `gfx_getch` reads
it, `gfx_getch` returns `k` reduced to a 32-bit C `int`, which is `k` itself
whenever `-2 ^ 31 <= k < 2 ^ 31`, and clears the slot, so that a second
`gfx_getch` during whose yield the browser leaves the slot alone returns `-1`;
the same holds of any truthy value in the slot, with its conversion to `int`
returned; when the slot is falsy (`null`, `undefined`, the number `0`),
`gfx_getch` returns `-1` and the window, slot included, is as the browser
left it. -/
theorem C8_gfx_getch_delivers_once (browser : Window → Window) (s : gfx_state) (m : Machine) :
    (∀ k : Int, (browser m.window).lastKeyPressed = JsVal.number k → k ≠ 0 →
        (gfx_getch browser s m).1 = to_int32 k
          ∧ (-2147483648 ≤ k → k < 2147483648 → (gfx_getch browser s m).1 = k)
          ∧ (gfx_getch browser s m).2.2.window.lastKeyPressed = JsVal.null
          ∧ ∀ (quiet : Window → Window) (s2 : gfx_state),
              (quiet (gfx_getch browser s m).2.2.window).lastKeyPressed
                  = (gfx_getch browser s m).2.2.window.lastKeyPressed →
              (gfx_getch quiet s2 (gfx_getch browser s m).2.2).1 = -1)
      ∧ ((browser m.window).lastKeyPressed.truthy = true →
          (gfx_getch browser s m).1 = (browser m.window).lastKeyPressed.as_int
            ∧ (gfx_getch browser s m).2.2.window.lastKeyPressed = JsVal.null
            ∧ ∀ (quiet : Window → Window) (s2 : gfx_state),
                (quiet (gfx_getch browser s m).2.2.window).lastKeyPressed
                    = (gfx_getch browser s m).2.2.window.lastKeyPressed →
                (gfx_getch quiet s2 (gfx_getch browser s m).2.2).1 = -1)
      ∧ ((browser m.window).lastKeyPressed.truthy = false →
          (gfx_getch browser s m).1 = -1
            ∧ (gfx_getch browser s m).2.2.window = browser m.window)
      ∧ ((browser m.window).lastKeyPressed = JsVal.null
          ∨ (browser m.window).lastKeyPressed = JsVal.undefined
          ∨ (browser m.window).lastKeyPressed = JsVal.number 0 →
          (gfx_getch browser s m).1 = -1
            ∧ (gfx_getch browser s m).2.2.window = browser m.window) := by
  have hfalsy : (browser m.window).lastKeyPressed.truthy = false →
      (gfx_getch browser s m).1 = -1
        ∧ (gfx_getch browser s m).2.2.window = browser m.window := by
    intro h
    simp [gfx_getch, emscripten_sleep, h]
  refine ⟨?_, gfx_getch_truthy browser s m, hfalsy, ?_⟩
  · intro k hk hk0
    have ht : (browser m.window).lastKeyPressed.truthy = true := by
      rw [hk]; simp [JsVal.truthy, hk0]
    obtain ⟨h1, h2, h3⟩ := gfx_getch_truthy browser s m ht
    have hv : (gfx_getch browser s m).1 = to_int32 k := by
      rw [h1, hk]; rfl
    exact ⟨hv, fun hlo hhi => by rw [hv, to_int32_of_int k hlo hhi], h2, h3⟩
  · rintro (h | h | h) <;> apply hfalsy <;> rw [h] <;> rfl

/-- The witness of C8 as amended: key 37 pending is returned once and then `-1`; an
empty slot gives `-1`. -/
theorem C8_gfx_getch_delivers_once_witness :
    (gfx_getch (fun w => { w with lastKeyPressed := JsVal.number 37 })
        { game := 0, last_score := 0 } (example_machine 0 0)).1 = 37
      ∧ (gfx_getch id { game := 0, last_score := 0 } (example_machine 0 0)).1 = -1 :=
  ⟨((C8_gfx_getch_delivers_once (fun w => { w with lastKeyPressed := JsVal.number 37 })
      { game := 0, last_score := 0 } (example_machine 0 0)).1 37 rfl (by decide)).2.1
      (by decide) (by decide),
   ((C8_gfx_getch_delivers_once id { game := 0, last_score := 0 } (example_machine 0 0)).2.2.2
      (Or.inl rfl)).1⟩

/-- Word `k` of the storage at byte address `p`, as C reads it, is the `HEAP32`
element that `js_update_board` reads at offset `k`. -/
theorem int_at_eq (HEAP32 : Int → Option Int) (p k : Int) :
    int_at HEAP32 p k = HEAP32 ((p >>> (2 : Nat)) + k) := by
  unfold int_at
  congr 1
  rw [Int.shiftRight_eq_div_pow, Int.shiftRight_eq_div_pow]
  norm_num
  exact Int.add_mul_ediv_left p k (by norm_num)

/-- For non-negative dimensions the offsets read by `js_update_board`, taken in
loop order, are `0, 1, ..., width * height - 1`. -/
theorem js_board_offsets_flatten (W H : Nat) :
    (js_board_offsets (W : Int) (H : Int)).flatten
      = (List.range (H * W)).map fun (k : Nat) => (k : Int) := by
  rw [← range_rows W H, List.map_flatMap, js_board_offsets, ← List.flatMap_def]
  simp only [Int.toNat_ofNat, List.map_map]
  congr 1

theorem js_board_length (HEAP32 : Int → Option Int) (grid W H : Int) :
    (js_board HEAP32 grid W H).length = H.toNat := by
  simp [js_board, js_board_offsets]

theorem js_board_row_length (HEAP32 : Int → Option Int) (grid W H : Int) (row : List (Option Int))
    (h : row ∈ js_board HEAP32 grid W H) : row.length = W.toNat := by
  simp only [js_board, js_board_offsets, List.map_map, List.mem_map, List.mem_range] at h
  obtain ⟨i, _, rfl⟩ := h
  simp

theorem js_board_entry (HEAP32 : Int → Option Int) (grid W H : Int) (i j : Nat)
    (hi : (i : Int) < H) (hj : (j : Int) < W) :
    ∃ row, (js_board HEAP32 grid W H)[i]? = some row
      ∧ row[j]? = some (HEAP32 ((grid >>> (2 : Nat)) + ((i : Int) * W + (j : Int)))) := by
  have hi2 : i < H.toNat := by omega
  have hj2 : j < W.toNat := by omega
  refine ⟨(List.range W.toNat).map fun (j : Nat) =>
    HEAP32 ((grid >>> (2 : Nat)) + ((i : Int) * W + (j : Int))),
    ?_, ?_⟩
  · simp [js_board, js_board_offsets, List.getElem?_range hi2]
  · simp [List.getElem?_range hj2]

/-- Claim C9: for `width = W >= 0` and `height = H >= 0` the board built by
`js_update_board` has exactly `H` rows, each of exactly `W` entries; entry
`(i, j)` is word `i * W + j` of the storage the grid pointer addresses; the
offsets read are, in order, `0, 1, ..., W * H - 1`, so each lies in
`[0, W * H)`, they are pairwise distinct and `W * H` in number; and neither the
board nor anything handed to the host depends on the `size` argument. -/
theorem C9_js_update_board_reads (m : Machine) (grid W H : Int) (hW : 0 ≤ W) (hH : 0 ≤ H) :
    ((js_board m.HEAP32 grid W H).length : Int) = H
      ∧ (∀ row ∈ js_board m.HEAP32 grid W H, (row.length : Int) = W)
      ∧ (∀ i j : Nat, (i : Int) < H → (j : Int) < W →
          ∃ row, (js_board m.HEAP32 grid W H)[i]? = some row
            ∧ row[j]? = some (int_at m.HEAP32 grid ((i : Int) * W + (j : Int))))
      ∧ (∀ k ∈ (js_board_offsets W H).flatten, 0 ≤ k ∧ k < W * H)
      ∧ (js_board_offsets W H).flatten.Nodup
      ∧ (((js_board_offsets W H).flatten.length : Int) = W * H)
      ∧ (∀ size size2 : Int,
          (js_update_board m grid size W H).host = (js_update_board m grid size2 W H).host
            ∧ (js_update_board m grid size W H).host
                = m.host ++ (if m.window.updateGameBoard then
                    [HostCall.updateGameBoard (js_board m.HEAP32 grid W H)] else [])) := by
  obtain ⟨w, rfl⟩ := Int.eq_ofNat_of_zero_le hW
  obtain ⟨h, rfl⟩ := Int.eq_ofNat_of_zero_le hH
  refine ⟨by simp [js_board_length], ?_, ?_, ?_, ?_, ?_, ?_⟩
  · intro row hrow
    simp [js_board_row_length _ _ _ _ row hrow]
  · intro i j hi hj
    simp only [int_at_eq]
    exact js_board_entry m.HEAP32 grid w h i j hi hj
  · intro k hk
    rw [js_board_offsets_flatten] at hk
    simp only [List.mem_map, List.mem_range] at hk
    obtain ⟨n, hn, rfl⟩ := hk
    constructor
    · positivity
    · have : ((n : Nat) : Int) < ((h * w : Nat) : Int) := by exact_mod_cast hn
      simpa [mul_comm] using this
  · rw [js_board_offsets_flatten]
    exact (List.nodup_range _).map (fun a b hab => by exact_mod_cast hab)
  · rw [js_board_offsets_flatten]
    simp [mul_comm]
  · intro size size2
    unfold js_update_board
    dsimp only
    constructor <;> split <;> simp

/-- The witness of C9: the 2 x 2 board of the example machine. -/
theorem C9_js_update_board_reads_witness :
    ((js_board (example_machine 0 0).HEAP32 16 2 2).length : Int) = 2
      ∧ (js_board_offsets 2 2).flatten.Nodup :=
  ⟨(C9_js_update_board_reads (example_machine 0 0) 16 2 2 (by decide) (by decide)).1,
   (C9_js_update_board_reads (example_machine 0 0) 16 2 2 (by decide) (by decide)).2.2.2.2.1⟩

/-- Claim C1, evaluated on the code: for the 2 x 2 grid stored column-major as the
words 1, 2, 3, 4, logical cell (row 0, column 1) is `grid[1][0] = 3` and
logical cell (row 1, column 0) is `grid[0][1] = 2`, but the board `gfx_draw`
hands to the host is `[[1, 2], [3, 4]]`, whose entry `[0][1]` is 2 and entry
`[1][0]` is 3: the board is the transpose of the logical grid. -/
theorem C1_board_is_transposed :
    (gfx_draw { game := 0, last_score := 0 } 0 (example_machine 0 0)).2.host
        = [HostCall.updateGameBoard [[some 1, some 2], [some 3, some 4]]]
      ∧ logical_cell (example_machine 0 0).HEAP32 16 2 0 1 = some 3
      ∧ logical_cell (example_machine 0 0).HEAP32 16 2 1 0 = some 2 := by
  refine ⟨?_, ?_, ?_⟩ <;> decide

theorem last_score_shown_append_score (host : List HostCall) (a b : Int) :
    last_score_shown (host ++ [HostCall.updateScore a b]) = some (a, b) := by
  simp [last_score_shown, List.foldl_append]

theorem last_score_shown_append_board (host : List HostCall) (board : Board) :
    last_score_shown (host ++ [HostCall.updateGameBoard board]) = last_score_shown host := by
  simp [last_score_shown, List.foldl_append]

theorem js_update_board_shown (m : Machine) (grid size width height : Int) :
    last_score_shown (js_update_board m grid size width height).host
      = last_score_shown m.host := by
  unfold js_update_board
  dsimp only
  split
  · exact last_score_shown_append_board _ _
  · rfl

/-- What one `gfx_draw` does to the score display when `window.updateScore` is
installed: if the score differs from `last_score` the pair (score, high score)
is handed over, otherwise the display is left as it was; `last_score` ends
equal to the score. -/
theorem gfx_draw_shown (s : gfx_state) (g : Nat) (m : Machine)
    (hw : m.window.updateScore = true) :
    (gfx_draw s g m).1.last_score = (m.gamestates g).score
      ∧ last_score_shown (gfx_draw s g m).2.host
          = (if (m.gamestates g).score ≠ s.last_score then
              some ((m.gamestates g).score, (m.gamestates g).score_high)
            else last_score_shown m.host) := by
  unfold gfx_draw
  simp only [js_update_board_gamestates]
  by_cases h : (m.gamestates g).score = s.last_score
  · simp [h, js_update_board_shown]
  · simp only [ne_eq, h, not_false_eq_true, if_true, js_update_score_gamestates,
      js_update_board_gamestates, true_and]
    unfold js_update_score
    simp only [js_update_board_window, hw, if_true]
    exact last_score_shown_append_score _ _ _

/-- The invariant of the frame loop: after any run of frames, `last_score` and the
score on display (0 while nothing has been handed over) both equal the game's
current score, and a pair on display satisfies any property that held of the
pair on display before and holds of (score, high score) of every drawn state. -/
theorem frames_shown (g : Nat) (P : Int × Int → Prop) (vs : List gamestate) :
    ∀ (s : gfx_state) (m : Machine), m.window.updateScore = true →
      s.last_score = (m.gamestates g).score →
      ((last_score_shown m.host).map Prod.fst).getD 0 = (m.gamestates g).score →
      (∀ p, last_score_shown m.host = some p → P p) →
      (∀ v ∈ vs, P (v.score, v.score_high)) →
      (frames g vs (s, m)).1.last_score = ((frames g vs (s, m)).2.gamestates g).score
        ∧ ((last_score_shown (frames g vs (s, m)).2.host).map Prod.fst).getD 0
            = ((frames g vs (s, m)).2.gamestates g).score
        ∧ (∀ p, last_score_shown (frames g vs (s, m)).2.host = some p → P p) := by
  induction vs with
  | nil =>
    intro s m _ h1 h2 h3 _
    exact ⟨h1, h2, h3⟩
  | cons v vs ih =>
    intro s m hw h1 h2 h3 h4
    have hset : (set_game m g v).gamestates g = v := by simp [set_game]
    have hd := gfx_draw_shown s g (set_game m g v) hw
    rw [hset] at hd
    have hgs : (gfx_draw s g (set_game m g v)).2.gamestates g = v := by
      rw [gfx_draw_gamestates, hset]
    have hwin : (gfx_draw s g (set_game m g v)).2.window.updateScore = true := by
      rw [gfx_draw_window]; exact hw
    show (frames g vs (gfx_draw s g (set_game m g v))).1.last_score = _ ∧ _
    apply ih (gfx_draw s g (set_game m g v)).1 (gfx_draw s g (set_game m g v)).2 hwin
    · rw [hd.1, hgs]
    · rw [hd.2, hgs]
      by_cases hc : v.score = s.last_score
      · simp only [ne_eq, hc, not_true_eq_false, if_false]
        show ((last_score_shown m.host).map Prod.fst).getD 0 = s.last_score
        rw [h2, h1]
      · simp [hc]
    · intro p hp
      rw [hd.2] at hp
      by_cases hc : v.score = s.last_score
      · simp only [ne_eq, hc, not_true_eq_false, if_false] at hp
        exact h3 p hp
      · simp only [ne_eq, hc, not_false_eq_true, if_true, Option.some.injEq] at hp
        rw [← hp]
        exact h4 v (List.mem_cons_self _ _)
    · intro w hwv
      exact h4 w (List.mem_cons_of_mem _ hwv)

/-- Claim C2 as stated fails.  First, `gfx_init` on a game with score 0 and high
score 100, with `window.updateScore` installed, hands no score to the host at
all, so the host is never given the high score 100.  Second, after a game with
score 4 and high score 4 has been drawn, a draw of a state with the same score
4 and high score 9 leaves (4, 4) on display. -/
theorem C2_draw_can_leave_stale_score :
    last_score_shown (gfx_init true 0 (example_machine 0 100)).2.host = none
      ∧ ((gfx_init true 0 (example_machine 0 100)).2.gamestates 0).score_high = 100
      ∧ last_score_shown
          (frames 0 [{ (example_machine 4 4).gamestates 0 with score_high := 9 }]
            (gfx_draw { game := 0, last_score := 0 } 0 (example_machine 4 4))).2.host
          = some (4, 4)
      ∧ ((frames 0 [{ (example_machine 4 4).gamestates 0 with score_high := 9 }]
            (gfx_draw { game := 0, last_score := 0 } 0 (example_machine 4 4))).2.gamestates
              0).score_high = 9 := by
  refine ⟨?_, ?_, ?_, ?_⟩ <;> decide

/-- After a run of frames the game state at `g` is the last one drawn. -/
theorem frames_game (g : Nat) (vs : List gamestate) :
    ∀ (s : gfx_state) (m : Machine),
      (frames g vs (s, m)).2.gamestates g = last_drawn (m.gamestates g) vs := by
  induction vs with
  | nil => intro s m; rfl
  | cons v vs ih =>
    intro s m
    show (frames g vs (gfx_draw s g (set_game m g v))).2.gamestates g = last_drawn v vs
    rw [ih, gfx_draw_gamestates]
    simp [set_game]

/-- Nothing is on display after a run of frames exactly when nothing was before and
every state drawn in the run has score 0. -/
theorem frames_nothing_shown (g : Nat) (vs : List gamestate) :
    ∀ (s : gfx_state) (m : Machine) (Z : Prop), m.window.updateScore = true →
      s.last_score = (m.gamestates g).score →
      ((last_score_shown m.host).map Prod.fst).getD 0 = (m.gamestates g).score →
      (last_score_shown m.host = none ↔ Z) →
      (last_score_shown (frames g vs (s, m)).2.host = none ↔ Z ∧ ∀ v ∈ vs, v.score = 0) := by
  induction vs with
  | nil =>
    intro s m Z _ _ _ hz
    simpa using hz
  | cons v vs ih =>
    intro s m Z hw h1 h2 hz
    have hset : (set_game m g v).gamestates g = v := by simp [set_game]
    have hd := gfx_draw_shown s g (set_game m g v) hw
    rw [hset] at hd
    have hgs : (gfx_draw s g (set_game m g v)).2.gamestates g = v := by
      rw [gfx_draw_gamestates, hset]
    have hwin : (gfx_draw s g (set_game m g v)).2.window.updateScore = true := by
      rw [gfx_draw_window]; exact hw
    have hshown : ((last_score_shown (gfx_draw s g (set_game m g v)).2.host).map Prod.fst).getD 0
        = v.score := by
      rw [hd.2]
      by_cases hc : v.score = s.last_score
      · simp only [ne_eq, hc, not_true_eq_false, if_false]
        show ((last_score_shown m.host).map Prod.fst).getD 0 = s.last_score
        rw [h2, h1]
      · simp [hc]
    have hz2 : last_score_shown (gfx_draw s g (set_game m g v)).2.host = none
        ↔ Z ∧ v.score = 0 := by
      rw [hd.2]
      by_cases hc : v.score = s.last_score
      · simp only [ne_eq, hc, not_true_eq_false, if_false]
        show last_score_shown m.host = none ↔ Z ∧ s.last_score = 0
        constructor
        · intro hn
          refine ⟨hz.1 hn, ?_⟩
          rw [h1, ← h2, hn]; rfl
        · intro hZ
          exact hz.2 hZ.1
      · simp only [ne_eq, hc, not_false_eq_true, if_true]
        constructor
        · intro h
          exact absurd h (Option.some_ne_none _)
        · rintro ⟨hZ, h0⟩
          exfalso
          apply hc
          have hn := hz.2 hZ
          rw [h0, h1, ← h2, hn]; rfl
    have := ih (gfx_draw s g (set_game m g v)).1 (gfx_draw s g (set_game m g v)).2
      (Z ∧ v.score = 0) hwin (by rw [hd.1, hgs]) (by rw [hshown, hgs]) hz2
    show last_score_shown (frames g vs (gfx_draw s g (set_game m g v))).2.host = none ↔ _
    rw [this, List.forall_mem_cons, and_assoc]

/-- When the high score never changes between consecutive drawn states of equal
score, a pair on display after a run of frames is the current score and high
score, provided that was so before the run. -/
theorem frames_current (g : Nat) (vs : List gamestate) :
    ∀ (s : gfx_state) (m : Machine), m.window.updateScore = true →
      s.last_score = (m.gamestates g).score →
      (∀ p, last_score_shown m.host = some p
        → p = ((m.gamestates g).score, (m.gamestates g).score_high)) →
      List.Chain high_follows_score (m.gamestates g) vs →
      ∀ p, last_score_shown (frames g vs (s, m)).2.host = some p →
        p = (((frames g vs (s, m)).2.gamestates g).score,
              ((frames g vs (s, m)).2.gamestates g).score_high) := by
  induction vs with
  | nil =>
    intro s m _ _ h3 _
    exact h3
  | cons v vs ih =>
    intro s m hw h1 h3 hch
    obtain ⟨hr, hch2⟩ := List.chain_cons.1 hch
    have hset : (set_game m g v).gamestates g = v := by simp [set_game]
    have hd := gfx_draw_shown s g (set_game m g v) hw
    rw [hset] at hd
    have hgs : (gfx_draw s g (set_game m g v)).2.gamestates g = v := by
      rw [gfx_draw_gamestates, hset]
    have hwin : (gfx_draw s g (set_game m g v)).2.window.updateScore = true := by
      rw [gfx_draw_window]; exact hw
    show ∀ p, last_score_shown (frames g vs (gfx_draw s g (set_game m g v))).2.host = some p → _
    apply ih (gfx_draw s g (set_game m g v)).1 (gfx_draw s g (set_game m g v)).2 hwin
    · rw [hd.1, hgs]
    · intro p hp
      rw [hd.2] at hp
      rw [hgs]
      by_cases hc : v.score = s.last_score
      · simp only [ne_eq, hc, not_true_eq_false, if_false] at hp
        have hp2 := h3 p hp
        have hsc : v.score = (m.gamestates g).score := by rw [hc, h1]
        rw [hp2, hr hsc, hsc]
      · simp only [ne_eq, hc, not_false_eq_true, if_true, Option.some.injEq] at hp
        exact hp.symm
    · rw [hgs]; exact hch2

/-- Claim C2 as amended: start from `gfx_init` with the allocation succeeding,
`window.updateScore` installed and no score handed over before; after any
sequence of game-state changes each followed by `gfx_draw`, the game state is
the last one drawn, `last_score` equals its score, the score most recently
handed to the host (0 while none has been) equals its score, nothing has been
handed over exactly when every state drawn so far has score 0, a pair handed
over is the score and high score of a drawn state whose score is the current
one, and whenever the high score never changes between two consecutive drawn
states of equal score, the pair most recently handed over is the game's
current score and high score. -/
theorem C2_draw_tracks_score (g : Nat) (m : Machine) (vs : List gamestate) (s0 : gfx_state)
    (hw : m.window.updateScore = true) (hfresh : last_score_shown m.host = none)
    (hinit : (gfx_init true g m).1 = some s0) :
    (frames g vs (s0, (gfx_init true g m).2)).2.gamestates g = last_drawn (m.gamestates g) vs
      ∧ (frames g vs (s0, (gfx_init true g m).2)).1.last_score
        = ((frames g vs (s0, (gfx_init true g m).2)).2.gamestates g).score
      ∧ ((last_score_shown (frames g vs (s0, (gfx_init true g m).2)).2.host).map Prod.fst).getD 0
          = ((frames g vs (s0, (gfx_init true g m).2)).2.gamestates g).score
      ∧ (last_score_shown (frames g vs (s0, (gfx_init true g m).2)).2.host = none
          ↔ ∀ v ∈ m.gamestates g :: vs, v.score = 0)
      ∧ (∀ p, last_score_shown (frames g vs (s0, (gfx_init true g m).2)).2.host = some p →
          ∃ v ∈ m.gamestates g :: vs, p = (v.score, v.score_high)
            ∧ v.score = ((frames g vs (s0, (gfx_init true g m).2)).2.gamestates g).score)
      ∧ (List.Chain high_follows_score (m.gamestates g) vs →
          ∀ p, last_score_shown (frames g vs (s0, (gfx_init true g m).2)).2.host = some p →
            p = (((frames g vs (s0, (gfx_init true g m).2)).2.gamestates g).score,
                  ((frames g vs (s0, (gfx_init true g m).2)).2.gamestates g).score_high)) := by
  have hs0 : s0 = (gfx_draw { game := g, last_score := 0 } g m).1 := by
    simp only [gfx_init, if_true, Option.some.injEq] at hinit
    exact hinit.symm
  have hm : (gfx_init true g m).2 = (gfx_draw { game := g, last_score := 0 } g m).2 := by
    simp [gfx_init]
  rw [hm, hs0]
  have hd := gfx_draw_shown { game := g, last_score := 0 } g m hw
  have hwin : (gfx_draw { game := g, last_score := 0 } g m).2.window.updateScore = true := by
    rw [gfx_draw_window]; exact hw
  have hlast : (gfx_draw { game := g, last_score := 0 } g m).1.last_score
      = ((gfx_draw { game := g, last_score := 0 } g m).2.gamestates g).score := by
    rw [hd.1, gfx_draw_gamestates]
  have hfst : ((last_score_shown (gfx_draw { game := g, last_score := 0 } g m).2.host).map
      Prod.fst).getD 0 = ((gfx_draw { game := g, last_score := 0 } g m).2.gamestates g).score := by
    rw [hd.2, gfx_draw_gamestates]
    by_cases hc : (m.gamestates g).score = 0
    · simp [hc, hfresh]
    · simp [hc]
  have hnone : last_score_shown (gfx_draw { game := g, last_score := 0 } g m).2.host = none
      ↔ (m.gamestates g).score = 0 := by
    rw [hd.2]
    by_cases hc : (m.gamestates g).score = 0
    · simp [hc, hfresh]
    · simp [hc]
  have hcur : ∀ p, last_score_shown (gfx_draw { game := g, last_score := 0 } g m).2.host = some p
      → p = (((gfx_draw { game := g, last_score := 0 } g m).2.gamestates g).score,
            ((gfx_draw { game := g, last_score := 0 } g m).2.gamestates g).score_high) := by
    intro p hp
    rw [hd.2] at hp
    rw [gfx_draw_gamestates]
    by_cases hc : (m.gamestates g).score = 0
    · simp [hc, hfresh] at hp
    · simp only [ne_eq, hc, not_false_eq_true, if_true, Option.some.injEq] at hp
      exact hp.symm
  have hinv := frames_shown g (fun p => ∃ v ∈ m.gamestates g :: vs, p = (v.score, v.score_high))
    vs _ _ hwin hlast hfst
    (fun p hp => ⟨m.gamestates g, List.mem_cons_self _ _, by
      have := hcur p hp
      rw [gfx_draw_gamestates] at this
      exact this⟩)
    (fun v hv => ⟨v, List.mem_cons_of_mem _ hv, rfl⟩)
  refine ⟨?_, hinv.1, hinv.2.1, ?_, ?_, ?_⟩
  · rw [frames_game, gfx_draw_gamestates]
  · rw [frames_nothing_shown g vs _ _ _ hwin hlast hfst hnone, List.forall_mem_cons]
  · intro p hp
    obtain ⟨v, hv, hpv⟩ := hinv.2.2 p hp
    refine ⟨v, hv, hpv, ?_⟩
    have h2 := hinv.2.1
    rw [hp] at h2
    rw [← h2, hpv]
    rfl
  · intro hch
    apply frames_current g vs _ _ hwin hlast hcur
    rw [gfx_draw_gamestates]
    exact hch

/-- The witness of C2 as amended: the example machine with score 4 and high score 4,
then a frame with score 8 and high score 9; the display ends on (8, 9), the
current score and high score. -/
theorem C2_draw_tracks_score_witness :
    last_score_shown
        (frames 0 [{ (example_machine 4 4).gamestates 0 with score := 8, score_high := 9 }]
          ({ game := 0, last_score := 4 }, (gfx_init true 0 (example_machine 4 4)).2)).2.host
        = some (8, 9)
      ∧ ((8 : Int), (9 : Int))
        = (((frames 0 [{ (example_machine 4 4).gamestates 0 with score := 8, score_high := 9 }]
              ({ game := 0, last_score := 4 },
                (gfx_init true 0 (example_machine 4 4)).2)).2.gamestates 0).score,
            ((frames 0 [{ (example_machine 4 4).gamestates 0 with score := 8, score_high := 9 }]
              ({ game := 0, last_score := 4 },
                (gfx_init true 0 (example_machine 4 4)).2)).2.gamestates 0).score_high) :=
  ⟨by decide,
   (C2_draw_tracks_score 0 (example_machine 4 4)
    [{ (example_machine 4 4).gamestates 0 with score := 8, score_high := 9 }]
    { game := 0, last_score := 4 } rfl rfl (by decide)).2.2.2.2.2
      (List.Chain.cons (fun h => absurd h (by decide)) List.Chain.nil)
      (8, 9) (by decide)⟩

end Web2048

namespace CacheTest

theorem memory_order_pass_eq (n : Nat) : memory_order_pass n = List.range (n * n) := by
  unfold memory_order_pass grid_offset
  exact range_rows n n

/-- The UI-order pass is the memory-order pass with row and column swapped: its
`k`-th read is the offset `(k % n) * n + k / n`. -/
theorem ui_order_pass_eq (n : Nat) :
    ui_order_pass n = (List.range (n * n)).map fun k => (k % n) * n + k / n := by
  rw [← range_rows n n, List.map_flatMap]
  unfold ui_order_pass grid_offset
  apply List.flatMap_congr
  intro r _
  rw [List.map_map]
  apply List.map_congr_left
  intro c hc
  have hc2 : c < n := List.mem_range.1 hc
  have hn : 0 < n := by omega
  simp only [Function.comp]
  rw [Nat.add_comm (r * n) c, Nat.add_mul_mod_self_right, Nat.add_mul_div_right _ _ hn,
    Nat.mod_eq_of_lt hc2, Nat.div_eq_of_lt hc2, Nat.zero_add]

theorem swap_lt (n k : Nat) (hk : k < n * n) : (k % n) * n + k / n < n * n := by
  have hn : 0 < n := by
    rcases Nat.eq_zero_or_pos n with h | h
    · subst h; simp at hk
    · exact h
  have h1 : k % n < n := Nat.mod_lt _ hn
  have h2 : k / n < n := Nat.div_lt_of_lt_mul hk
  calc (k % n) * n + k / n < (k % n) * n + n := by omega
    _ = (k % n + 1) * n := by ring
    _ ≤ n * n := Nat.mul_le_mul_right n h1

theorem swap_inj (n x y : Nat) (hx : x < n * n) (hy : y < n * n)
    (h : (x % n) * n + x / n = (y % n) * n + y / n) : x = y := by
  have hn : 0 < n := by
    rcases Nat.eq_zero_or_pos n with h0 | h0
    · subst h0; simp at hx
    · exact h0
  have hx2 : x / n < n := Nat.div_lt_of_lt_mul hx
  have hy2 : y / n < n := Nat.div_lt_of_lt_mul hy
  have hd : x / n = y / n := by
    have := congrArg (fun t => t % n) h
    simp only [Nat.add_comm _ (_ / n), Nat.add_mul_mod_self_right] at this
    rwa [Nat.mod_eq_of_lt hx2, Nat.mod_eq_of_lt hy2] at this
  have hm : x % n = y % n := by
    have := congrArg (fun t => t / n) h
    simp only [Nat.add_comm _ (_ / n), Nat.add_mul_div_right _ _ hn] at this
    rwa [Nat.div_eq_of_lt hx2, Nat.div_eq_of_lt hy2, Nat.zero_add, Nat.zero_add] at this
  rw [← Nat.div_add_mod x n, ← Nat.div_add_mod y n, hd, hm]

theorem ui_order_pass_nodup (n : Nat) : (ui_order_pass n).Nodup := by
  rw [ui_order_pass_eq]
  apply List.Nodup.map_on _ (List.nodup_range _)
  intro x hx y hy h
  exact swap_inj n x y (List.mem_range.1 hx) (List.mem_range.1 hy) h

theorem ui_order_pass_perm (n : Nat) : (ui_order_pass n).Perm (memory_order_pass n) := by
  rw [memory_order_pass_eq]
  apply List.Subperm.perm_of_length_le
  · apply List.subperm_of_subset (ui_order_pass_nodup n)
    intro x hx
    rw [ui_order_pass_eq] at hx
    obtain ⟨k, hk, rfl⟩ := List.mem_map.1 hx
    exact List.mem_range.2 (swap_lt n k (List.mem_range.1 hk))
  · rw [ui_order_pass_eq]
    simp

theorem ui_order_pass_get (n r c : Nat) (hr : r < n) (hc : c < n) :
    (ui_order_pass n)[r * n + c]? = some (grid_offset n c r) := by
  have hn : 0 < n := by omega
  have hlt : r * n + c < n * n := by
    calc r * n + c < r * n + n := by omega
      _ = (r + 1) * n := by ring
      _ ≤ n * n := Nat.mul_le_mul_right n hr
  rw [ui_order_pass_eq, List.getElem?_map, List.getElem?_range hlt]
  simp only [Option.map_some', grid_offset]
  rw [Nat.add_comm (r * n) c, Nat.add_mul_mod_self_right, Nat.add_mul_div_right _ _ hn,
    Nat.mod_eq_of_lt hc, Nat.div_eq_of_lt hc, Nat.zero_add]

theorem repeat_pass (iterations : Nat) (pass : List Nat) :
    ((List.range iterations).flatMap fun _ => pass) = (List.replicate iterations pass).flatten := by
  rw [List.flatMap_def, List.map_const', List.length_range]

/-- Claim C10: in `benchmark_access_patterns` one memory-order pass (`c` outer, `r`
inner, reading `grid[c][r]`) reads the offsets `0, 1, ..., SIZE * SIZE - 1` in
that order; one UI-order pass (`r` outer, `c` inner, reading `grid[c][r]`)
reads the same offsets, each exactly once, in the transposed order: its read
number `r * SIZE + c` is offset `c * SIZE + r`, so consecutive reads of a row
are `SIZE` apart; and each test is its pass repeated `ITERATIONS` times. -/
theorem C10_traversal_orders :
    memory_order_pass SIZE = List.range (SIZE * SIZE)
      ∧ (ui_order_pass SIZE).Perm (memory_order_pass SIZE)
      ∧ (ui_order_pass SIZE).Nodup
      ∧ (∀ r c : Nat, r < SIZE → c < SIZE →
          (ui_order_pass SIZE)[r * SIZE + c]? = some (c * SIZE + r))
      ∧ (∀ r c : Nat, r < SIZE → c + 1 < SIZE →
          ∃ a, (ui_order_pass SIZE)[r * SIZE + c]? = some a
            ∧ (ui_order_pass SIZE)[r * SIZE + (c + 1)]? = some (a + SIZE))
      ∧ memory_order_test ITERATIONS SIZE
          = (List.replicate ITERATIONS (memory_order_pass SIZE)).flatten
      ∧ ui_order_test ITERATIONS SIZE
          = (List.replicate ITERATIONS (ui_order_pass SIZE)).flatten := by
  refine ⟨memory_order_pass_eq SIZE, ui_order_pass_perm SIZE, ui_order_pass_nodup SIZE, ?_, ?_,
    repeat_pass _ _, repeat_pass _ _⟩
  · intro r c hr hc
    exact ui_order_pass_get SIZE r c hr hc
  · intro r c hr hc
    refine ⟨c * SIZE + r, ui_order_pass_get SIZE r c hr (by omega), ?_⟩
    rw [ui_order_pass_get SIZE r (c + 1) hr hc]
    simp only [grid_offset]
    congr 1
    ring

end CacheTest

namespace Engine

/-- The three facts about the scan of step 3 on a sequence none of whose tiles is
marked merged: splitting every merged tile of the result in two gives back the
sequence scanned; the score delta is the sum of the merged tiles' values; and
twice the number of merged tiles is at most the length of the sequence. -/
theorem merge_scan_spec (ts : List Tile) (h : ∀ t ∈ ts, t.merged = false) :
    (merge_scan ts).1.flatMap Tile.parts = ts.map Tile.value
      ∧ (merge_scan ts).2 = (((merge_scan ts).1.filter fun t => t.merged).map Tile.value).sum
      ∧ 2 * ((merge_scan ts).1.filter fun t => t.merged).length ≤ ts.length := by
  induction ts using merge_scan.induct with
  | case1 => simp [merge_scan]
  | case2 a =>
    have ha : a.merged = false := h a (List.mem_singleton.2 rfl)
    simp [merge_scan, Tile.parts, ha]
  | case3 a b rest hc ih =>
    have hrest : ∀ t ∈ rest, t.merged = false := fun t ht =>
      h t (List.mem_cons_of_mem _ (List.mem_cons_of_mem _ ht))
    obtain ⟨i1, i2, i3⟩ := ih hrest
    have hab : a.value = b.value := hc.1
    rw [merge_scan, if_pos hc]
    refine ⟨?_, ?_, ?_⟩
    · simp only [List.flatMap_cons, i1, Tile.parts, if_true, List.map_cons]
      simp [hab]
    · simp only [List.filter_cons, if_true, List.map_cons, List.sum_cons]
      rw [i2]
    · simp only [List.filter_cons, if_true, List.length_cons]
      omega
  | case4 a b rest hc ih =>
    have ha : a.merged = false := h a (List.mem_cons_self _ _)
    have hrest : ∀ t ∈ b :: rest, t.merged = false := fun t ht =>
      h t (List.mem_cons_of_mem _ ht)
    obtain ⟨i1, i2, i3⟩ := ih hrest
    rw [merge_scan, if_neg hc]
    refine ⟨?_, ?_, ?_⟩
    · simp only [List.flatMap_cons, i1, Tile.parts, ha, List.map_cons]
      simp
    · simp only [List.filter_cons, ha]
      simpa using i2
    · simp only [List.filter_cons, ha]
      simp only [List.length_cons] at i3 ⊢
      simp only [Bool.false_eq_true, if_false]
      omega

theorem unmerged_tiles_merged (line : List Nat) : ∀ t ∈ unmerged_tiles line, t.merged = false := by
  intro t ht
  simp only [unmerged_tiles, List.mem_map] at ht
  obtain ⟨v, _, rfl⟩ := ht
  rfl

theorem unmerged_tiles_value (line : List Nat) :
    (unmerged_tiles line).map Tile.value = compact line := by
  simp [unmerged_tiles, Function.comp_def]

theorem unmerged_tiles_length (line : List Nat) : (unmerged_tiles line).length ≤ line.length := by
  simp only [unmerged_tiles, compact, List.length_map]
  exact List.length_filter_le _ _

theorem move_line_score (line : List Nat) :
    (move_line line).score_delta = (created_tiles line).sum :=
  (merge_scan_spec (unmerged_tiles line) (unmerged_tiles_merged line)).2.1

theorem apply_move_score {n : Nat} (g : Grid n) (d : Direction) :
    (apply_move g d).score_delta = (created_by_move g d).sum := by
  simp only [apply_move, created_by_move, List.flatMap_def, List.sum_flatten, List.map_map]
  congr 1
  apply List.map_congr_left
  intro k _
  exact move_line_score _

/-- Claim C5: on every line the merged sequence, with each tile marked merged split
back into its two halves, is exactly the compacted line, so every tile of the
result is an original tile or the single fusion of two equal adjacent original
tiles and no merged tile is merged again; the score delta of the line is the
sum of the values of the tiles created by merging, at most half as many as
the line is long; the score delta of a move is the sum of the values of the
tiles created by merging over its lines; and the row `[2,2,2,2]` moved Left
becomes `[4,4,0,0]` with score delta 8 and changed = true. -/
theorem C5_merge_once (line : List Nat) (n : Nat) (g : Grid n) (d : Direction) :
    (merge_scan (unmerged_tiles line)).1.flatMap Tile.parts = compact line
      ∧ (move_line line).score_delta = (created_tiles line).sum
      ∧ (created_tiles line).length ≤ line.length / 2
      ∧ (apply_move g d).score_delta = (created_by_move g d).sum
      ∧ move_line [2, 2, 2, 2] = { line := [4, 4, 0, 0], score_delta := 8, changed := true }
      ∧ (apply_move (Grid.ofRows 4 [[2, 2, 2, 2]]) Direction.Left).grid.toRows
          = [[4, 4, 0, 0], [0, 0, 0, 0], [0, 0, 0, 0], [0, 0, 0, 0]]
      ∧ (apply_move (Grid.ofRows 4 [[2, 2, 2, 2]]) Direction.Left).score_delta = 8
      ∧ (apply_move (Grid.ofRows 4 [[2, 2, 2, 2]]) Direction.Left).changed = true := by
  have hs := merge_scan_spec (unmerged_tiles line) (unmerged_tiles_merged line)
  refine ⟨?_, move_line_score line, ?_, apply_move_score g d, by decide, by decide, by decide,
    by decide⟩
  · rw [hs.1, unmerged_tiles_value]
  · have h3 := hs.2.2
    have h4 := unmerged_tiles_length line
    simp only [created_tiles, List.length_map]
    omega

/-- Claim C6 as stated fails: on the 4 x 4 grid whose first row is `[2,2,2,2]`, moving
Left gives `[4,4,0,0]`, and moving Left again with no spawn in between gives
`[8,0,0,0]`, so the second application reports changed = true. -/
theorem C6_second_move_can_change :
    (apply_move (Grid.ofRows 4 [[2, 2, 2, 2]]) Direction.Left).grid.toRows
        = [[4, 4, 0, 0], [0, 0, 0, 0], [0, 0, 0, 0], [0, 0, 0, 0]]
      ∧ (apply_move (apply_move (Grid.ofRows 4 [[2, 2, 2, 2]]) Direction.Left).grid
          Direction.Left).grid.toRows
        = [[8, 0, 0, 0], [0, 0, 0, 0], [0, 0, 0, 0], [0, 0, 0, 0]]
      ∧ (apply_move (apply_move (Grid.ofRows 4 [[2, 2, 2, 2]]) Direction.Left).grid
          Direction.Left).changed = true := by
  refine ⟨?_, ?_, ?_⟩ <;> decide

theorem line_cell_cell_line {n : Nat} (d : Direction) (r c : Fin n) :
    line_cell d (cell_line d r c).1 (cell_line d r c).2 = (r, c) := by
  cases d <;> simp [line_cell, cell_line]

theorem extract_line_getD {n : Nat} (g : Grid n) (d : Direction) (k p : Fin n) :
    (extract_line g d k).getD p.val 0 = g (line_cell d k p).1 (line_cell d k p).2 := by
  simp [extract_line, List.getD_eq_getElem?_getD, List.getElem?_ofFn, List.ofFnNthVal]

/-- A move that reports changed = false returns the grid it was given. -/
theorem apply_move_fixed {n : Nat} (g : Grid n) (d : Direction)
    (h : (apply_move g d).changed = false) : (apply_move g d).grid = g := by
  funext r c
  have hk : (move_line (extract_line g d (cell_line d r c).1)).changed = false := by
    have := List.any_eq_false.1 h (cell_line d r c).1 (List.mem_finRange _)
    simpa using this
  have hl : (move_line (extract_line g d (cell_line d r c).1)).line
      = extract_line g d (cell_line d r c).1 := by
    simpa [move_line] using hk
  show (move_line (extract_line g d (cell_line d r c).1)).line.getD (cell_line d r c).2 0 = g r c
  rw [hl, extract_line_getD, line_cell_cell_line]

theorem cell_line_line_cell {n : Nat} (d : Direction) (k p : Fin n) :
    cell_line d (line_cell d k p).1 (line_cell d k p).2 = (k, p) := by
  cases d <;> simp [line_cell, cell_line]

/-- The scan of step 3 on tiles that are unmarked and not empty: the result has no
empty tile and is not longer; if no two neighbours are equal the scan returns
the sequence as it is with score delta 0, and otherwise the result is strictly
shorter and the score delta is positive. -/
theorem merge_scan_neighbours (ts : List Tile)
    (h : ∀ t ∈ ts, t.merged = false ∧ t.value ≠ 0) :
    (∀ t ∈ (merge_scan ts).1, t.value ≠ 0)
      ∧ (merge_scan ts).1.length ≤ ts.length
      ∧ (no_equal_neighbours (ts.map Tile.value) = true → merge_scan ts = (ts, 0))
      ∧ (no_equal_neighbours (ts.map Tile.value) = false →
          (merge_scan ts).1.length < ts.length ∧ 0 < (merge_scan ts).2) := by
  induction ts using merge_scan.induct with
  | case1 => simp [merge_scan, no_equal_neighbours]
  | case2 a =>
    have ha := h a (List.mem_singleton.2 rfl)
    simp [merge_scan, no_equal_neighbours, ha.2]
  | case3 a b rest hc ih =>
    have ha := h a (List.mem_cons_self _ _)
    have hrest : ∀ t ∈ rest, t.merged = false ∧ t.value ≠ 0 := fun t ht =>
      h t (List.mem_cons_of_mem _ (List.mem_cons_of_mem _ ht))
    obtain ⟨i1, i2, _, _⟩ := ih hrest
    have hab : a.value = b.value := hc.1
    rw [merge_scan, if_pos hc]
    refine ⟨?_, ?_, ?_, ?_⟩
    · intro t ht
      rcases List.mem_cons.1 ht with rfl | ht
      · simpa using ha.2
      · exact i1 t ht
    · simp only [List.length_cons]
      omega
    · intro hn
      simp [no_equal_neighbours, hab] at hn
    · intro _
      have hpos : 0 < a.value := Nat.pos_of_ne_zero ha.2
      simp only [List.length_cons]
      constructor <;> omega
  | case4 a b rest hc ih =>
    have ha := h a (List.mem_cons_self _ _)
    have hb := h b (List.mem_cons_of_mem _ (List.mem_cons_self _ _))
    have hrest : ∀ t ∈ b :: rest, t.merged = false ∧ t.value ≠ 0 := fun t ht =>
      h t (List.mem_cons_of_mem _ ht)
    obtain ⟨i1, i2, i3, i4⟩ := ih hrest
    have hab : a.value ≠ b.value := fun e => hc ⟨e, ha.1, hb.1⟩
    rw [merge_scan, if_neg hc]
    refine ⟨?_, ?_, ?_, ?_⟩
    · intro t ht
      rcases List.mem_cons.1 ht with rfl | ht
      · exact ha.2
      · exact i1 t ht
    · simp only [List.length_cons] at i2 ⊢
      omega
    · intro hn
      have hn2 : no_equal_neighbours ((b :: rest).map Tile.value) = true := by
        simp only [List.map_cons, no_equal_neighbours, Bool.and_eq_true] at hn
        simpa using hn.2
      rw [i3 hn2]
    · intro hn
      have hn2 : no_equal_neighbours ((b :: rest).map Tile.value) = false := by
        simp only [List.map_cons, no_equal_neighbours, Bool.and_eq_false_iff,
          decide_eq_false_iff_not, ne_eq, not_not] at hn
        rcases hn with hn | hn
        · exact absurd hn hab
        · simpa using hn
      obtain ⟨j1, j2⟩ := i4 hn2
      simp only [List.length_cons] at j1 ⊢
      exact ⟨by omega, j2⟩

theorem unmerged_tiles_ok (line : List Nat) :
    ∀ t ∈ unmerged_tiles line, t.merged = false ∧ t.value ≠ 0 := by
  intro t ht
  simp only [unmerged_tiles, compact, List.mem_map, List.mem_filter] at ht
  obtain ⟨v, ⟨_, hv⟩, rfl⟩ := ht
  exact ⟨rfl, by simpa using hv⟩

theorem compact_append_zeros (vals : List Nat) (z : Nat) (h : ∀ v ∈ vals, v ≠ 0) :
    compact (vals ++ List.replicate z 0) = vals := by
  have h1 : List.filter (fun v => decide (v ≠ 0)) vals = vals :=
    List.filter_eq_self.2 (fun a ha => by simpa using h a ha)
  simp only [compact, List.filter_append, h1, List.filter_replicate]
  simp

theorem move_line_line (line : List Nat) :
    (move_line line).line
      = (merge_scan (unmerged_tiles line)).1.map Tile.value
        ++ List.replicate (line.length - ((merge_scan (unmerged_tiles line)).1.map Tile.value).length)
            0 := rfl

theorem move_line_length (line : List Nat) : (move_line line).line.length = line.length := by
  have h1 := (merge_scan_neighbours (unmerged_tiles line) (unmerged_tiles_ok line)).2.1
  have h2 := unmerged_tiles_length line
  rw [move_line_line]
  simp only [List.length_append, List.length_map, List.length_replicate]
  omega

theorem move_line_compact (line : List Nat) :
    compact (move_line line).line = (merge_scan (unmerged_tiles line)).1.map Tile.value := by
  rw [move_line_line]
  apply compact_append_zeros
  intro v hv
  obtain ⟨t, ht, rfl⟩ := List.mem_map.1 hv
  exact (merge_scan_neighbours (unmerged_tiles line) (unmerged_tiles_ok line)).1 t ht

/-- A line in which the scan finds nothing to merge is only packed by the move, with
score delta 0. -/
theorem move_line_no_merge (line : List Nat)
    (h : no_equal_neighbours (compact line) = true) :
    (move_line line).line
        = compact line ++ List.replicate (line.length - (compact line).length) 0
      ∧ (move_line line).score_delta = 0 := by
  have h3 := (merge_scan_neighbours (unmerged_tiles line) (unmerged_tiles_ok line)).2.2.1
  rw [unmerged_tiles_value] at h3
  have hs := h3 h
  constructor
  · rw [move_line_line, hs, unmerged_tiles_value]
  · show (merge_scan (unmerged_tiles line)).2 = 0
    rw [hs]

/-- A line in which the scan finds something to merge is changed by the move, with a
positive score delta. -/
theorem move_line_merge (line : List Nat)
    (h : no_equal_neighbours (compact line) = false) :
    (move_line line).changed = true ∧ 0 < (move_line line).score_delta := by
  have h4 := (merge_scan_neighbours (unmerged_tiles line) (unmerged_tiles_ok line)).2.2.2
  rw [unmerged_tiles_value] at h4
  obtain ⟨hlen, hpos⟩ := h4 h
  refine ⟨?_, hpos⟩
  have hne : (move_line line).line ≠ line := by
    intro he
    have hc := move_line_compact line
    rw [he] at hc
    have hl := congrArg List.length hc
    rw [List.length_map, ← unmerged_tiles_value, List.length_map] at hl
    omega
  show decide ((move_line line).line ≠ line) = true
  exact decide_eq_true hne

/-- The line a move has produced is packed: moving it again leaves it unchanged
exactly when it holds no two equal neighbouring tiles, which is exactly when
the second move merges nothing. -/
theorem move_line_twice (line : List Nat) :
    ((move_line (move_line line).line).changed = false
        ↔ no_equal_neighbours (compact (move_line line).line) = true)
      ∧ ((move_line (move_line line).line).score_delta = 0
        ↔ no_equal_neighbours (compact (move_line line).line) = true) := by
  cases hn : no_equal_neighbours (compact (move_line line).line) with
  | true =>
    obtain ⟨h1, h2⟩ := move_line_no_merge (move_line line).line hn
    refine ⟨⟨fun _ => rfl, fun _ => ?_⟩, ⟨fun _ => rfl, fun _ => h2⟩⟩
    have hsame : (move_line (move_line line).line).line = (move_line line).line := by
      rw [h1, move_line_compact, move_line_length]
      exact (move_line_line line).symm
    show decide ((move_line (move_line line).line).line ≠ (move_line line).line) = false
    exact decide_eq_false (not_not.2 hsame)
  | false =>
    obtain ⟨h1, h2⟩ := move_line_merge (move_line line).line hn
    refine ⟨⟨fun h => ?_, fun h => by cases h⟩, ⟨fun h => ?_, fun h => by cases h⟩⟩
    · rw [h1] at h; cases h
    · omega

/-- A first move that merges nothing on a line leaves a line that a second move does
not change. -/
theorem move_line_twice_of_no_merge (line : List Nat) (h : (move_line line).score_delta = 0) :
    (move_line (move_line line).line).changed = false := by
  have hn : no_equal_neighbours (compact line) = true := by
    cases hc : no_equal_neighbours (compact line) with
    | true => rfl
    | false =>
      have := (move_line_merge line hc).2
      omega
  have h3 := (merge_scan_neighbours (unmerged_tiles line) (unmerged_tiles_ok line)).2.2.1
  rw [unmerged_tiles_value] at h3
  have hs := h3 hn
  apply (move_line_twice line).1.2
  rw [move_line_compact, hs, unmerged_tiles_value]
  exact hn

theorem ofFn_getD (n : Nat) (l : List Nat) (h : l.length = n) :
    (List.ofFn fun p : Fin n => l.getD p.val 0) = l := by
  apply List.ext_getElem
  · rw [List.length_ofFn, h]
  · intro i h1 h2
    rw [List.getElem_ofFn, List.getD_eq_getElem l 0 h2]

/-- Step 5 writes each line back where step 1 reads it: the lines of the grid a move
returns are the moved lines of the grid it was given. -/
theorem extract_line_apply_move {n : Nat} (g : Grid n) (d : Direction) (k : Fin n) :
    extract_line (apply_move g d).grid d k = (move_line (extract_line g d k)).line := by
  have hlen : (move_line (extract_line g d k)).line.length = n := by
    rw [move_line_length, extract_line, List.length_ofFn]
  have : extract_line (apply_move g d).grid d k
      = List.ofFn fun p : Fin n => (move_line (extract_line g d k)).line.getD p.val 0 := by
    unfold extract_line apply_move
    congr 1
    funext p
    simp only [cell_line_line_cell]
    rfl
  rw [this]
  exact ofFn_getD n _ hlen

/-- Claim C6 as amended: for every grid and every direction, the first application of
a move packs every line, so a second application of the same move with no
spawn in between can change the grid only by merging: it reports changed =
false exactly when no line of the grid returned by the first application holds
two equal neighbouring tiles once its empty cells are left out, which is
exactly when the second application's score delta is 0.  In particular the
second application reports changed = false whenever the first application
merged nothing (score delta 0), and whenever the first application reported
changed = false, in which case the grid is returned unchanged. -/
theorem C6_second_move (n : Nat) (g : Grid n) (d : Direction) :
    ((apply_move (apply_move g d).grid d).changed = false
        ↔ ∀ k : Fin n,
            no_equal_neighbours (compact (extract_line (apply_move g d).grid d k)) = true)
      ∧ ((apply_move (apply_move g d).grid d).changed = false
        ↔ (apply_move (apply_move g d).grid d).score_delta = 0)
      ∧ ((apply_move g d).score_delta = 0 →
          (apply_move (apply_move g d).grid d).changed = false)
      ∧ ((apply_move g d).changed = false →
          (apply_move g d).grid = g ∧ (apply_move (apply_move g d).grid d).changed = false) := by
  have hchanged : ∀ g2 : Grid n, (apply_move g2 d).changed = false
      ↔ ∀ k : Fin n, (move_line (extract_line g2 d k)).changed = false := by
    intro g2
    show ((List.finRange n).any fun k => (move_line (extract_line g2 d k)).changed) = false ↔ _
    rw [List.any_eq_false]
    constructor
    · intro h k
      simpa using h k (List.mem_finRange k)
    · intro h k _
      simp [h k]
  have hscore : ∀ g2 : Grid n, (apply_move g2 d).score_delta = 0
      ↔ ∀ k : Fin n, (move_line (extract_line g2 d k)).score_delta = 0 := by
    intro g2
    show ((List.finRange n).map fun k => (move_line (extract_line g2 d k)).score_delta).sum = 0
      ↔ _
    rw [List.sum_eq_zero_iff]
    constructor
    · intro h k
      exact h _ (List.mem_map.2 ⟨k, List.mem_finRange k, rfl⟩)
    · intro h x hx
      obtain ⟨k, _, rfl⟩ := List.mem_map.1 hx
      exact h k
  have h1 : (apply_move (apply_move g d).grid d).changed = false
      ↔ ∀ k : Fin n,
          no_equal_neighbours (compact (extract_line (apply_move g d).grid d k)) = true := by
    rw [hchanged]
    apply forall_congr'
    intro k
    rw [extract_line_apply_move]
    exact (move_line_twice _).1
  have h2 : (apply_move (apply_move g d).grid d).score_delta = 0
      ↔ ∀ k : Fin n,
          no_equal_neighbours (compact (extract_line (apply_move g d).grid d k)) = true := by
    rw [hscore]
    apply forall_congr'
    intro k
    rw [extract_line_apply_move]
    exact (move_line_twice _).2
  refine ⟨h1, h1.trans h2.symm, ?_, ?_⟩
  · intro h0
    rw [hchanged]
    intro k
    rw [extract_line_apply_move]
    exact move_line_twice_of_no_merge _ ((hscore g).1 h0 k)
  · intro h
    have hg := apply_move_fixed g d h
    exact ⟨hg, by rw [hg]; exact h⟩

/-- The witness of C6 as amended: on the grid with rows `[2,2,0,0]` and `[8,0,4,0]` the
first move Left merges the two 2s and slides the 4; no two equal tiles are
neighbours afterwards, and the second move Left reports changed = false. -/
theorem C6_second_move_witness :
    (apply_move (Grid.ofRows 4 [[2, 2, 0, 0], [8, 0, 4, 0]]) Direction.Left).changed = true
      ∧ (apply_move (Grid.ofRows 4 [[2, 2, 0, 0], [8, 0, 4, 0]]) Direction.Left).score_delta = 4
      ∧ (apply_move (apply_move (Grid.ofRows 4 [[2, 2, 0, 0], [8, 0, 4, 0]])
          Direction.Left).grid Direction.Left).changed = false :=
  ⟨by decide, by decide,
   (C6_second_move 4 (Grid.ofRows 4 [[2, 2, 0, 0], [8, 0, 4, 0]]) Direction.Left).1.2
      (by decide)⟩

end Engine
